import Mathlib

/-!
Verification development for the nutrition-research-analyzer repository.

The definitions below are a shallow embedding of the repository's core:

* `extract_paper_sections` (src/src/utils.py, lines 13-70): the deterministic
  document segmenter.
* `create_nutrition_crew` (src/src/crew.py, lines 4-31): the construction of
  the per-stage input texts handed to the analysis stages.
* `validate_trust_score_lax` / `validate_has_coi_lax` (src/src/models.py,
  lines 16 and 44-45): the declared field constraints of the `PaperAnalysis`
  schema as enforced by pydantic v2's default lax validation.
* `runAnalysisBatch` (src/app.py, lines 79-110): the per-document analysis
  loop with its failure isolation and progress reporting.

Texts are modeled as `List Char`.  Whitespace and word characters follow the
ASCII behaviour of Python's `re` module (`\s`, `\w`) and `str.strip()`;
`Char.toLower` models `str.lower()` on the ASCII range, which is the range the
fixed heading aliases live in.
-/

/-- ASCII whitespace as matched by Python's regex class `\s` and stripped by
`str.strip()`: space, tab, newline, carriage return, vertical tab, form feed. -/
def isSpaceChar (c : Char) : Bool :=
  c == ' ' || c == '\t' || c == '\n' || c == '\x0d' || c == '\x0b' || c == '\x0c'

/-- Word characters as matched by Python's regex class `\w` (ASCII range):
letters, digits and the underscore.  Used to model the `\b` word boundary. -/
def isWordChar (c : Char) : Bool :=
  c.isAlphanum || c == '_'

/-- `re.sub(r'\s+', ' ', text)` (src/src/utils.py line 22): every maximal run
of whitespace characters is replaced by a single space. -/
def collapseWS : List Char → List Char
  | [] => []
  | [c] => if isSpaceChar c then [ ' ' ] else [c]
  | c :: d :: rest =>
    if isSpaceChar c then
      if isSpaceChar d then collapseWS (d :: rest)
      else ' ' :: collapseWS (d :: rest)
    else c :: collapseWS (d :: rest)

/-- Python `str.strip()`: remove leading and trailing whitespace. -/
def stripList (l : List Char) : List Char :=
  ((l.dropWhile isSpaceChar).reverse.dropWhile isSpaceChar).reverse

/-- One regex match of the pattern `\b<alias>\b` at position `p` of `l`
(src/src/utils.py lines 46-47).  The alias occupies `l[p : p + a.length]`;
the character before `p` (if any) and the character after the occurrence
(if any) must not be word characters.  Every alias starts and ends with a
letter, so `\b` reduces to exactly these two conditions. -/
def matchesAt (l : List Char) (p : Nat) (a : List Char) : Bool :=
  ((l.drop p).take a.length == a)
    && (p == 0 || !isWordChar (l.getD (p - 1) ' '))
    && (p + a.length == l.length || !isWordChar (l.getD (p + a.length) ' '))

/-- The eight canonical section names of `CANONICAL_SECTIONS`
(src/src/utils.py lines 25-39).  `title` is not one of them: it is handled
separately and never takes part in the heading scan. -/
inductive SectionName where
  | abstract
  | introduction
  | methods
  | results
  | discussion
  | conclusion
  | funding
  | conflicts_of_interest
deriving DecidableEq, Repr

/-- The alias phrase lists of `CANONICAL_SECTIONS` (src/src/utils.py
lines 25-39), already lower-case as in the source. -/
def aliasesOf : SectionName → List (List Char)
  | .abstract => [("abstract").toList]
  | .introduction => [("introduction").toList, ("background").toList]
  | .methods =>
      [("methods").toList, ("materials and methods").toList, ("methodology").toList]
  | .results => [("results").toList, ("findings").toList]
  | .discussion => [("discussion").toList]
  | .conclusion => [("conclusion").toList, ("conclusions").toList]
  | .funding =>
      [("funding").toList, ("funding statement").toList, ("sources of funding").toList]
  | .conflicts_of_interest =>
      [("conflicts of interest").toList, ("conflict of interest").toList,
       ("competing interests").toList, ("disclosure").toList]

/-- Iteration order of `CANONICAL_SECTIONS.items()`: Python dictionaries
preserve insertion order, so this is the literal order of src/src/utils.py
lines 25-39. -/
def sectionOrder : List SectionName :=
  [.abstract, .introduction, .methods, .results, .discussion, .conclusion,
   .funding, .conflicts_of_interest]

/-- All start offsets at which alias `a` matches in `l`, ascending — the
offsets produced by `re.finditer` (src/src/utils.py line 47).  For the fixed
alias table no two occurrences of one alias can overlap (no alias has a
border ending in a space), so `finditer`'s non-overlapping scan returns
exactly the set of all matching offsets. -/
def matchPositions (l : List Char) (a : List Char) : List Nat :=
  (List.range l.length).filter (fun p => matchesAt l p a)

/-- `heading_positions` before sorting (src/src/utils.py lines 42-48):
for every canonical section and every alias, record `(startOffset, section)`
for each match. -/
def headingPositions (l : List Char) : List (Nat × SectionName) :=
  sectionOrder.flatMap (fun s =>
    (aliasesOf s).flatMap (fun a =>
      (matchPositions l a).map (fun p => (p, s))))

/-- The comparison used by `heading_positions.sort(key=lambda x: x[0])`
(src/src/utils.py line 51). -/
def offsetLE (x y : Nat × SectionName) : Prop := x.1 ≤ y.1

instance : DecidableRel offsetLE := fun x y => Nat.decLe x.1 y.1

instance : IsTotal (Nat × SectionName) offsetLE := ⟨fun x y => Nat.le_total x.1 y.1⟩

instance : IsTrans (Nat × SectionName) offsetLE := ⟨fun _ _ _ => Nat.le_trans⟩

/-- The section dictionary returned by `extract_paper_sections`: always
exactly the eight canonical keys plus `title`, each explicitly `None` when
absent (src/src/utils.py lines 53-55). -/
structure SectionSet where
  title : Option (List Char)
  abstract : Option (List Char)
  introduction : Option (List Char)
  methods : Option (List Char)
  results : Option (List Char)
  discussion : Option (List Char)
  conclusion : Option (List Char)
  funding : Option (List Char)
  conflicts_of_interest : Option (List Char)
deriving DecidableEq, Repr

/-- Dictionary lookup `sections[section_name]` for the canonical names. -/
def SectionSet.get (S : SectionSet) : SectionName → Option (List Char)
  | .abstract => S.abstract
  | .introduction => S.introduction
  | .methods => S.methods
  | .results => S.results
  | .discussion => S.discussion
  | .conclusion => S.conclusion
  | .funding => S.funding
  | .conflicts_of_interest => S.conflicts_of_interest

/-- `if sections[section_name] is None: sections[section_name] = section_text`
(src/src/utils.py lines 66-68). -/
def setIfNone (S : SectionSet) (s : SectionName) (v : List Char) : SectionSet :=
  match s with
  | .abstract =>
      match S.abstract with
      | none => { S with abstract := some v }
      | some _ => S
  | .introduction =>
      match S.introduction with
      | none => { S with introduction := some v }
      | some _ => S
  | .methods =>
      match S.methods with
      | none => { S with methods := some v }
      | some _ => S
  | .results =>
      match S.results with
      | none => { S with results := some v }
      | some _ => S
  | .discussion =>
      match S.discussion with
      | none => { S with discussion := some v }
      | some _ => S
  | .conclusion =>
      match S.conclusion with
      | none => { S with conclusion := some v }
      | some _ => S
  | .funding =>
      match S.funding with
      | none => { S with funding := some v }
      | some _ => S
  | .conflicts_of_interest =>
      match S.conflicts_of_interest with
      | none => { S with conflicts_of_interest := some v }
      | some _ => S

/-- The end offset of the current slice: the start offset of the next match
in the sorted walk, or the length of the normalized text for the last match
(src/src/utils.py line 63). -/
def nextOff (len : Nat) : List (Nat × SectionName) → Nat
  | [] => len
  | (q, _) :: _ => q

/-- `normalized[start_idx:end_idx].strip()` (src/src/utils.py line 64). -/
def sliceStrip (norm : List Char) (p e : Nat) : List Char :=
  stripList ((norm.drop p).take (e - p))

/-- The slicing walk over the offset-sorted match list
(src/src/utils.py lines 62-68). -/
def walk (norm : List Char) : List (Nat × SectionName) → SectionSet → SectionSet
  | [], S => S
  | (p, s) :: rest, S =>
      walk norm rest (setIfNone S s (sliceStrip norm p (nextOff norm.length rest)))

/-- `text[:500].strip() if text else None` (src/src/utils.py line 19):
the title snippet is cut from the RAW input text, before normalization, and
the empty string (the only falsy string) yields `None`. -/
def titleSnippet (text : List Char) : Option (List Char) :=
  if text = [] then none else some (stripList (text.take 500))

/-- The initial dictionary `{k: None for k in CANONICAL_SECTIONS}` together
with the `title` entry (src/src/utils.py lines 54-55). -/
def emptySectionSet (t : Option (List Char)) : SectionSet :=
  ⟨t, none, none, none, none, none, none, none, none⟩

/-- The lower-cased normalized text used for matching
(src/src/utils.py line 23). -/
def loweredOf (text : List Char) : List Char :=
  (collapseWS text).map Char.toLower

/-- `heading_positions` after the stable sort by start offset
(src/src/utils.py line 51).  Lean's `insertionSort` inserts earlier list
elements before later elements with equal keys, which is exactly the
stability guarantee of Python's `list.sort`. -/
def sortedHeadings (text : List Char) : List (Nat × SectionName) :=
  List.insertionSort offsetLE (headingPositions (loweredOf text))

/-- `extract_paper_sections` (src/src/utils.py lines 13-70).  The early
return on an empty match list (line 58-59) coincides with the walk over an
empty list, so it needs no separate case. -/
def extract_paper_sections (text : List Char) : SectionSet :=
  walk (collapseWS text) (sortedHeadings text) (emptySectionSet (titleSnippet text))

/-- A recorded heading match for section `s` at offset `p`: some alias of
`s` matches at `p` with word boundaries, case-insensitively. -/
def sectionMatchAt (l : List Char) (s : SectionName) (p : Nat) : Prop :=
  ∃ a ∈ aliasesOf s, matchesAt l p a = true

instance (l : List Char) (s : SectionName) (p : Nat) : Decidable (sectionMatchAt l s p) :=
  List.decidableBEx (fun a => matchesAt l p a = true) (aliasesOf s)

/-- The first slice assigned to section `s` during the walk: the slice of the
first entry for `s` in the sorted match list, delimited by the next entry's
offset (src/src/utils.py lines 62-68, seen per section). -/
def firstSliceOf (norm : List Char) (s : SectionName) :
    List (Nat × SectionName) → Option (List Char)
  | [] => none
  | (p, t) :: rest =>
      if t = s then some (sliceStrip norm p (nextOff norm.length rest))
      else firstSliceOf norm s rest

/-! ### Stage input construction (src/src/crew.py) -/

/-- Python's `x or d` for an optional string `x`: `None` and the empty string
are falsy, any other string is returned unchanged. -/
def falsyOr (v : Option (List Char)) (d : List Char) : List Char :=
  match v with
  | none => d
  | some [] => d
  | some (c :: cs) => c :: cs

/-- Python's `filter(None, parts)` over optional strings: drop `None` and
drop empty strings (both falsy). -/
def truthyParts (parts : List (Option (List Char))) : List (List Char) :=
  parts.filterMap (fun v =>
    match v with
    | none => none
    | some [] => none
    | some (c :: cs) => some (c :: cs))

/-- The four per-stage input texts built by `create_nutrition_crew`
(src/src/crew.py lines 18-31).  The agent/task/LLM plumbing around them is
external library orchestration; the core logic embedded here is exactly how
the section texts are threaded into the stages. -/
structure CrewTexts where
  triage_text : List Char
  methods_text : List Char
  stats_text : List Char
  title_text : List Char
deriving DecidableEq, Repr

/-- `create_nutrition_crew` (src/src/crew.py lines 18-31):
`triage_text = "\n\n".join(filter(None, [abstract, funding, conflicts_of_interest]))`,
`methods_text = methods or "METHODS NOT REPORTED"`,
`stats_text = "\n\n".join(filter(None, [methods, results]))`,
`title_text = title or "TITLE NOT FOUND"`. -/
def create_nutrition_crew (ps : SectionSet) : CrewTexts :=
  { triage_text :=
      List.intercalate [ '\n' , '\n' ]
        (truthyParts [ps.abstract, ps.funding, ps.conflicts_of_interest])
  , methods_text := falsyOr ps.methods (("METHODS NOT REPORTED").toList)
  , stats_text :=
      List.intercalate [ '\n' , '\n' ] (truthyParts [ps.methods, ps.results])
  , title_text := falsyOr ps.title (("TITLE NOT FOUND").toList) }

/-! ### Schema validation (src/src/models.py) -/

/-- A JSON-style value that can land in a slot of the Synthesis payload. -/
inductive JsonValue where
  | null
  | jint (n : Int)
  | jstr (s : String)
  | jbool (b : Bool)
deriving DecidableEq, Repr

/-- The `trust_score` acceptance policy as the specification words it
(claim C2): STRICTLY an integer in [1,10] or null, everything else rejected,
never coerced.  This is a claim-side definition kept only for comparison
with the engine model `validate_trust_score_lax` below; it is NOT the
program's behaviour. -/
def trust_score_claimed_policy : JsonValue → Option (Option Int)
  | .null => some none
  | .jint n => if 1 ≤ n ∧ n ≤ 10 then some (some n) else none
  | .jstr _ => none
  | .jbool _ => none

/-- The `has_conflict_of_interest` acceptance policy as the specification
words it (claim C2): strictly a boolean or null, any string rejected.
Claim-side definition, for comparison with `validate_has_coi_lax`. -/
def has_coi_claimed_policy : JsonValue → Option (Option Bool)
  | .null => some none
  | .jbool b => some (some b)
  | .jint _ => none
  | .jstr _ => none

/-- Value of a run of decimal digit characters. -/
def digitsVal (l : List Char) : Nat :=
  l.foldl (fun acc c => acc * 10 + (c.toNat - 48)) 0

/-- A nonempty all-digit run parsed to a natural number, `none` otherwise. -/
def parseNatDigits : List Char → Option Nat
  | [] => none
  | c :: cs =>
      if (c :: cs).all Char.isDigit then some (digitsVal (c :: cs)) else none

/-- pydantic's lax string-to-int conversion, for the string shapes any
theorem here exercises: an optional sign followed by a nonempty decimal
digit run.  (pydantic additionally trims surrounding whitespace and accepts
a few further numeric spellings such as "1.0"; no theorem below rests on a
string of those shapes.) -/
def strToInt? (s : String) : Option Int :=
  match s.toList with
  | '-' :: rest => (parseNatDigits rest).map (fun n => -(n : Int))
  | '+' :: rest => (parseNatDigits rest).map (fun n => (n : Int))
  | l => (parseNatDigits l).map (fun n => (n : Int))

/-- Validation of the `trust_score` slot as the program performs it:
the declared field `trust_score: Optional[int] = Field(None, ge=1, le=10)`
(src/src/models.py lines 44-45) enforced by pydantic v2 in its DEFAULT LAX
mode (nothing in the repository enables strict mode), modeled over the
payload shapes of `JsonValue`: integers are bounds-checked and stored
unchanged; numeric strings are COERCED to the integer they spell and then
bounds-checked; booleans are not converted to integers; JSON floats are
outside this universe (pydantic lax would accept integral floats).
`some r` = accepted with stored value `r`, `none` = validation failure. -/
def validate_trust_score_lax : JsonValue → Option (Option Int)
  | .null => some none
  | .jint n => if 1 ≤ n ∧ n ≤ 10 then some (some n) else none
  | .jstr s =>
      match strToInt? s with
      | some n => if 1 ≤ n ∧ n ≤ 10 then some (some n) else none
      | none => none
  | .jbool _ => none

/-- pydantic's lax string-to-bool token set (applied to the lower-cased
string): "true"/"t"/"yes"/"y"/"on"/"1" are true, "false"/"f"/"no"/"n"/
"off"/"0" are false, anything else fails. -/
def boolOfToken (l : List Char) : Option Bool :=
  if l = ("true").toList ∨ l = ("t").toList ∨ l = ("yes").toList
      ∨ l = ("y").toList ∨ l = ("on").toList ∨ l = ("1").toList then some true
  else if l = ("false").toList ∨ l = ("f").toList ∨ l = ("no").toList
      ∨ l = ("n").toList ∨ l = ("off").toList ∨ l = ("0").toList then some false
  else none

/-- Validation of the `has_conflict_of_interest` slot as the program
performs it: the declared field `Optional[bool]` (src/src/models.py line 16)
enforced by pydantic v2's default lax mode: booleans pass through
unchanged; bool-like strings (case-insensitively) and the integers 0/1 are
COERCED; everything else is rejected. -/
def validate_has_coi_lax : JsonValue → Option (Option Bool)
  | .null => some none
  | .jbool b => some (some b)
  | .jint n =>
      if n = 0 then some (some false)
      else if n = 1 then some (some true) else none
  | .jstr s => (boolOfToken (s.toList.map Char.toLower)).map some

/-- The `PaperAnalysis` pydantic model (src/src/models.py lines 4-47):
seventeen fields, all optional. -/
structure PaperAnalysis where
  filename : Option String
  title : Option String
  paper_type : Option String
  evidence_level : Option String
  has_conflict_of_interest : Option Bool
  funding_source : Option String
  coi_notes : Option String
  control_group_quality : Option String
  intervention_details : Option String
  confounding_factors : Option String
  primary_outcome : Option String
  risk_type_reported : Option String
  endpoints : Option String
  statistical_significance : Option String
  conclusion_summary : Option String
  trust_score : Option Int
  final_verdict : Option String
deriving DecidableEq, Repr

/-! ### The batch analysis loop (src/app.py lines 79-110) -/

/-- The observable outcome of `crew.kickoff()` for one document, as
discriminated by src/app.py lines 93-103:
`raises` — the call raises an exception (capability invocation error or a
validation error surfacing as an exception);
`structured` — the output has a truthy `pydantic` attribute holding a
validated record;
`rawOnly` — the output has no truthy `pydantic` attribute but has `raw`
(unstructured text only);
`bare` — neither attribute, the output object itself is appended. -/
inductive CrewOutcome where
  | raises (msg : String)
  | structured (r : PaperAnalysis)
  | rawOnly (raw : String)
  | bare
deriving Repr

/-- What ends up in `st.session_state.results`: either a validated
`PaperAnalysis` record (the `pydantic` branch) or the raw crew output object
itself (the final `else` branch of src/app.py line 103). -/
inductive StoredResult where
  | validated (r : PaperAnalysis)
  | bareOutput
deriving Repr

/-- One document handed to the loop: its filename and the outcome that the
(external) crew produces for it. -/
structure Paper where
  filename : String
  outcome : CrewOutcome
deriving Repr

/-- The observable state of the batch loop: accumulated successful results
(`st.session_state.results`), emitted failure diagnostics (`st.error` /
the extraction-failure `st.warning`), and the sequence of progress reports
`(idx + 1, len(papers))` issued to the progress bar. -/
structure BatchState where
  results : List StoredResult
  failures : List (String × String)
  progress : List (Nat × Nat)
deriving Repr

/-- The diagnostic emitted on an exception:
`st.error(f"Error analyzing {filename}: {e}")` (src/app.py line 108). -/
def errorDiag (filename msg : String) : String :=
  "Error analyzing " ++ filename ++ ": " ++ msg

/-- The diagnostic emitted when structured extraction fails:
`st.warning(f"Structured data extraction failed for {filename}. Raw output: {raw[:100]}...")`
(src/app.py line 100). -/
def rawFailDiag (filename raw : String) : String :=
  "Structured data extraction failed for " ++ filename ++ ". Raw output: "
    ++ raw.take 100 ++ "..."

/-- The body of `for idx, paper in enumerate(papers)` (src/app.py
lines 81-110).  Note the control flow of the source exactly:
the `continue` in the raw-output branch (line 101) jumps to the next
iteration and therefore SKIPS the `progress_bar.progress((idx + 1) / len(papers))`
call at line 110; every other branch reaches it. -/
def runAnalysisLoop (n : Nat) : Nat → List Paper → BatchState → BatchState
  | _, [], st => st
  | idx, p :: rest, st =>
    runAnalysisLoop n (idx + 1) rest
      (match p.outcome with
       | .raises msg =>
           { st with
             failures := st.failures ++ [(p.filename, errorDiag p.filename msg)]
             progress := st.progress ++ [(idx + 1, n)] }
       | .structured r =>
           { st with
             results := st.results ++ [StoredResult.validated r]
             progress := st.progress ++ [(idx + 1, n)] }
       | .rawOnly raw =>
           { st with
             failures := st.failures ++ [(p.filename, rawFailDiag p.filename raw)] }
       | .bare =>
           { st with
             results := st.results ++ [StoredResult.bareOutput]
             progress := st.progress ++ [(idx + 1, n)] })

/-- The whole analysis loop of src/app.py lines 79-110, starting from the
cleared result list (line 70) and an empty progress bar (line 79). -/
def runAnalysisBatch (papers : List Paper) : BatchState :=
  runAnalysisLoop papers.length 0 papers ⟨[], [], []⟩

/-- The validated records contributed by a run of the loop, in input order. -/
def batchResults (papers : List Paper) : List StoredResult :=
  papers.filterMap (fun p =>
    match p.outcome with
    | .structured r => some (StoredResult.validated r)
    | .bare => some StoredResult.bareOutput
    | _ => none)

/-- The failure diagnostics contributed by a run of the loop, in input order. -/
def batchFailures (papers : List Paper) : List (String × String) :=
  papers.filterMap (fun p =>
    match p.outcome with
    | .raises msg => some (p.filename, errorDiag p.filename msg)
    | .rawOnly raw => some (p.filename, rawFailDiag p.filename raw)
    | _ => none)

/-- The progress reports contributed by a run of the loop starting at
document index `idx` with denominator `n`. -/
def batchProgress (n : Nat) : Nat → List Paper → List (Nat × Nat)
  | _, [] => []
  | idx, p :: rest =>
      (match p.outcome with
       | .rawOnly _ => []
       | _ => [(idx + 1, n)]) ++ batchProgress n (idx + 1) rest

/-- The records (success payloads) of a list of papers, in input order. -/
def recordsOf (papers : List Paper) : List PaperAnalysis :=
  papers.filterMap (fun p =>
    match p.outcome with
    | .structured r => some r
    | _ => none)

/-- Keep an already-assigned value, otherwise fall back: the per-key effect
of the walk's assign-only-if-`None` rule. -/
def keepOr (o o2 : Option (List Char)) : Option (List Char) :=
  match o with
  | none => o2
  | some w => some w

/-- A `PaperAnalysis` record with every optional field `None` — a minimal
valid record used as a concrete witness payload. -/
def recNone : PaperAnalysis :=
  ⟨none, none, none, none, none, none, none, none, none,
   none, none, none, none, none, none, none, none⟩

/-- A concrete document whose analysis succeeds. -/
def paperOkA : Paper := ⟨("a.pdf"), CrewOutcome.structured recNone⟩

/-- A concrete document whose analysis raises an exception. -/
def paperBad : Paper := ⟨("b.pdf"), CrewOutcome.raises ("boom")⟩

/-- Another concrete document whose analysis succeeds. -/
def paperOkC : Paper := ⟨("c.pdf"), CrewOutcome.structured recNone⟩

/-- A concrete document whose crew output carries only unstructured text. -/
def paperRawOnly : Paper := ⟨("d.pdf"), CrewOutcome.rawOnly ("The study shows")⟩

/-! ### Lemmas about the segmentation walk -/

theorem keepOr_none_right (o : Option (List Char)) : keepOr o none = o := by
  cases o <;> rfl

theorem title_setIfNone (S : SectionSet) (t : SectionName) (v : List Char) :
    (setIfNone S t v).title = S.title := by
  cases t <;> simp only [setIfNone] <;> split <;> rfl

theorem get_setIfNone (S : SectionSet) (t : SectionName) (v : List Char) (s : SectionName) :
    (setIfNone S t v).get s =
      if s = t then keepOr (S.get s) (some v) else S.get s := by
  cases t <;> cases s <;>
    simp only [setIfNone, SectionSet.get, keepOr, reduceCtorEq, if_true, if_false] <;>
    split <;> simp_all [SectionSet.get]

theorem title_walk (norm : List Char) (L : List (Nat × SectionName)) (S : SectionSet) :
    (walk norm L S).title = S.title := by
  induction L generalizing S with
  | nil => rfl
  | cons x rest ih =>
      obtain ⟨p, t⟩ := x
      rw [walk, ih, title_setIfNone]

theorem get_walk (norm : List Char) (L : List (Nat × SectionName)) (S : SectionSet)
    (s : SectionName) :
    (walk norm L S).get s = keepOr (S.get s) (firstSliceOf norm s L) := by
  induction L generalizing S with
  | nil => rw [walk, firstSliceOf, keepOr_none_right]
  | cons x rest ih =>
      obtain ⟨p, t⟩ := x
      rw [walk, ih, get_setIfNone]
      by_cases hst : s = t
      · subst hst
        rw [if_pos rfl, firstSliceOf, if_pos rfl]
        cases hS : S.get s <;> simp [keepOr]
      · rw [if_neg hst, firstSliceOf, if_neg (fun h => hst h.symm)]

/-! ### Lemmas about the recorded matches -/

theorem mem_sectionOrder (s : SectionName) : s ∈ sectionOrder := by
  cases s <;> simp [sectionOrder]

theorem alias_ne_nil (s : SectionName) : ∀ a ∈ aliasesOf s, a ≠ [] := by
  cases s <;> decide

theorem matchesAt_lt_length {l : List Char} {p : Nat} {a : List Char}
    (h : matchesAt l p a = true) (ha : a ≠ []) : p < l.length := by
  by_contra hge
  have hle : l.length ≤ p := Nat.not_lt.mp hge
  have hdrop : l.drop p = [] := List.drop_eq_nil_of_le hle
  simp only [matchesAt, Bool.and_eq_true, beq_iff_eq] at h
  have h1 := h.1.1
  rw [hdrop, List.take_nil] at h1
  exact ha h1.symm

theorem mem_headingPositions {l : List Char} {p : Nat} {s : SectionName} :
    (p, s) ∈ headingPositions l ↔ sectionMatchAt l s p := by
  constructor
  · intro h
    simp only [headingPositions, List.mem_flatMap, List.mem_map, matchPositions,
      List.mem_filter, List.mem_range] at h
    obtain ⟨s', _, a, ha, p', ⟨_, hm⟩, heq⟩ := h
    have hp : p' = p := congrArg Prod.fst heq
    have hs : s' = s := congrArg Prod.snd heq
    subst hp
    subst hs
    exact ⟨a, ha, hm⟩
  · intro ⟨a, ha, hm⟩
    simp only [headingPositions, List.mem_flatMap, List.mem_map, matchPositions,
      List.mem_filter, List.mem_range]
    exact ⟨s, mem_sectionOrder s, a, ha, p,
      ⟨matchesAt_lt_length hm (alias_ne_nil s a ha), hm⟩, rfl⟩

theorem mem_sortedHeadings {text : List Char} {p : Nat} {s : SectionName} :
    (p, s) ∈ sortedHeadings text ↔ sectionMatchAt (loweredOf text) s p := by
  rw [sortedHeadings,
    (List.perm_insertionSort offsetLE (headingPositions (loweredOf text))).mem_iff]
  exact mem_headingPositions

theorem pairwise_sortedHeadings (text : List Char) :
    (sortedHeadings text).Pairwise offsetLE :=
  List.sorted_insertionSort offsetLE (headingPositions (loweredOf text))

theorem sortedHeadings_lt_length {text : List Char} {x : Nat × SectionName}
    (hx : x ∈ sortedHeadings text) : x.1 < (collapseWS text).length := by
  obtain ⟨p, s⟩ := x
  obtain ⟨a, ha, hm⟩ := mem_sortedHeadings.mp hx
  have h := matchesAt_lt_length hm (alias_ne_nil s a ha)
  simpa [loweredOf] using h

theorem firstSliceOf_isSome {norm : List Char} {s : SectionName}
    {L : List (Nat × SectionName)} (h : ∃ q, (q, s) ∈ L) :
    (firstSliceOf norm s L).isSome := by
  induction L with
  | nil =>
      obtain ⟨q, hq⟩ := h
      simp at hq
  | cons x rest ih =>
      obtain ⟨p, t⟩ := x
      by_cases hts : t = s
      · rw [firstSliceOf, if_pos hts]
        rfl
      · rw [firstSliceOf, if_neg hts]
        apply ih
        obtain ⟨q, hq⟩ := h
        rcases List.mem_cons.mp hq with heq | hmem
        · exact absurd (congrArg Prod.snd heq).symm hts
        · exact ⟨q, hmem⟩

theorem firstSliceOf_spec {norm : List Char} {s : SectionName}
    {L : List (Nat × SectionName)} (hpw : L.Pairwise offsetLE)
    (hlt : ∀ x ∈ L, x.1 < norm.length) {v : List Char}
    (hv : firstSliceOf norm s L = some v) :
    ∃ p e, (p, s) ∈ L ∧ (∀ q, (q, s) ∈ L → p ≤ q) ∧ p ≤ e ∧ e ≤ norm.length ∧
      v = sliceStrip norm p e ∧ (e = norm.length ∨ ∃ t, (e, t) ∈ L) ∧
      (∀ x ∈ L, x.1 ≤ p ∨ e ≤ x.1) := by
  induction L with
  | nil => simp [firstSliceOf] at hv
  | cons x rest ih =>
      obtain ⟨p0, t0⟩ := x
      rw [firstSliceOf] at hv
      by_cases ht : t0 = s
      · subst ht
        rw [if_pos rfl] at hv
        have hveq : v = sliceStrip norm p0 (nextOff norm.length rest) :=
          (Option.some.inj hv).symm
        refine ⟨p0, nextOff norm.length rest, List.mem_cons_self _ _, ?_, ?_, ?_, hveq, ?_, ?_⟩
        · intro q hq
          rcases List.mem_cons.mp hq with heq | hmem
          · exact Nat.le_of_eq (congrArg Prod.fst heq).symm
          · exact (List.pairwise_cons.mp hpw).1 (q, t0) hmem
        · cases rest with
          | nil => exact Nat.le_of_lt (hlt (p0, t0) (List.mem_cons_self _ _))
          | cons y ys =>
              obtain ⟨q1, t1⟩ := y
              exact (List.pairwise_cons.mp hpw).1 (q1, t1) (List.mem_cons_self _ _)
        · cases rest with
          | nil => exact Nat.le_refl _
          | cons y ys =>
              obtain ⟨q1, t1⟩ := y
              exact Nat.le_of_lt
                (hlt (q1, t1) (List.mem_cons_of_mem _ (List.mem_cons_self _ _)))
        · cases rest with
          | nil => exact Or.inl rfl
          | cons y ys =>
              obtain ⟨q1, t1⟩ := y
              exact Or.inr ⟨t1, List.mem_cons_of_mem _ (List.mem_cons_self _ _)⟩
        · intro x hx
          rcases List.mem_cons.mp hx with heq | hmem
          · exact Or.inl (Nat.le_of_eq (congrArg Prod.fst heq))
          · cases rest with
            | nil => exact absurd hmem (List.not_mem_nil x)
            | cons y ys =>
                obtain ⟨q1, t1⟩ := y
                right
                rcases List.mem_cons.mp hmem with heq' | hmem'
                · exact Nat.le_of_eq (congrArg Prod.fst heq').symm
                · exact (List.pairwise_cons.mp (List.pairwise_cons.mp hpw).2).1 x hmem'
      · rw [if_neg ht] at hv
        have hpw' := (List.pairwise_cons.mp hpw).2
        have hlt' : ∀ x ∈ rest, x.1 < norm.length :=
          fun x hx => hlt x (List.mem_cons_of_mem _ hx)
        obtain ⟨p, e, hmem, hmin, hpe, hel, hveq, hep, hbet⟩ := ih hpw' hlt' hv
        refine ⟨p, e, List.mem_cons_of_mem _ hmem, ?_, hpe, hel, hveq, ?_, ?_⟩
        · intro q hq
          rcases List.mem_cons.mp hq with heq | hq'
          · exact absurd (congrArg Prod.snd heq).symm ht
          · exact hmin q hq'
        · rcases hep with h' | ⟨t, ht'⟩
          · exact Or.inl h'
          · exact Or.inr ⟨t, List.mem_cons_of_mem _ ht'⟩
        · intro x hx
          rcases List.mem_cons.mp hx with heq | hx'
          · exact Or.inl (Nat.le_trans (Nat.le_of_eq (congrArg Prod.fst heq))
              ((List.pairwise_cons.mp hpw).1 (p, s) hmem))
          · exact hbet x hx'

theorem get_extract (text : List Char) (s : SectionName) :
    (extract_paper_sections text).get s
      = firstSliceOf (collapseWS text) s (sortedHeadings text) := by
  rw [extract_paper_sections, get_walk]
  have h : (emptySectionSet (titleSnippet text)).get s = none := by
    cases s <;> rfl
  rw [h]
  rfl

theorem title_extract (text : List Char) :
    (extract_paper_sections text).title = titleSnippet text := by
  rw [extract_paper_sections, title_walk]
  rfl

/-! ### Lemmas about the batch loop -/

theorem runAnalysisLoop_spec (n : Nat) (papers : List Paper) :
    ∀ (idx : Nat) (st : BatchState),
    runAnalysisLoop n idx papers st =
      ⟨st.results ++ batchResults papers,
       st.failures ++ batchFailures papers,
       st.progress ++ batchProgress n idx papers⟩ := by
  induction papers with
  | nil =>
      intro idx st
      simp [runAnalysisLoop, batchResults, batchFailures, batchProgress]
  | cons p rest ih =>
      intro idx st
      rw [runAnalysisLoop]
      cases hout : p.outcome <;>
        simp [hout, ih, batchResults, batchFailures, batchProgress,
          List.filterMap_cons, List.append_assoc]

theorem batchResults_structured {l : List Paper}
    (h : ∀ p ∈ l, ∃ r, p.outcome = CrewOutcome.structured r) :
    batchResults l = (recordsOf l).map StoredResult.validated := by
  induction l with
  | nil => rfl
  | cons p rest ih =>
      obtain ⟨r, hr⟩ := h p (List.mem_cons_self _ _)
      have ih' := ih (fun q hq => h q (List.mem_cons_of_mem _ hq))
      simp [batchResults, recordsOf, List.filterMap_cons, hr] at ih' ⊢
      exact ih'

theorem batchFailures_structured {l : List Paper}
    (h : ∀ p ∈ l, ∃ r, p.outcome = CrewOutcome.structured r) :
    batchFailures l = [] := by
  induction l with
  | nil => rfl
  | cons p rest ih =>
      obtain ⟨r, hr⟩ := h p (List.mem_cons_self _ _)
      have ih' := ih (fun q hq => h q (List.mem_cons_of_mem _ hq))
      have hstep : batchFailures (p :: rest) = batchFailures rest := by
        simp only [batchFailures, List.filterMap_cons, hr]
      rw [hstep, ih']

/-! ### Claim theorems -/

/-- Claim C1: for a batch in which exactly one document's analysis raises an
error and every other document's analysis yields a validated record, the run
completes with the other documents' records as successes in their original
relative order, and the one bad document is recorded as a failure whose
diagnostic references its filename; no per-document error aborts the batch. -/
theorem batch_isolates_single_error (pre post : List Paper) (bad : Paper) (msg : String)
    (hpre : ∀ p ∈ pre, ∃ r, p.outcome = CrewOutcome.structured r)
    (hpost : ∀ p ∈ post, ∃ r, p.outcome = CrewOutcome.structured r)
    (hbad : bad.outcome = CrewOutcome.raises msg) :
    (runAnalysisBatch (pre ++ bad :: post)).results
        = ((recordsOf pre ++ recordsOf post).map StoredResult.validated)
      ∧ (runAnalysisBatch (pre ++ bad :: post)).failures
        = [(bad.filename, errorDiag bad.filename msg)]
      ∧ ∃ d1 d2, errorDiag bad.filename msg = d1 ++ bad.filename ++ d2 := by
  have hres : batchResults (pre ++ bad :: post) = batchResults pre ++ batchResults post := by
    simp only [batchResults, List.filterMap_append, List.filterMap_cons, hbad]
  have hfail : batchFailures (pre ++ bad :: post)
      = batchFailures pre ++ (bad.filename, errorDiag bad.filename msg) :: batchFailures post := by
    simp only [batchFailures, List.filterMap_append, List.filterMap_cons, hbad]
  rw [runAnalysisBatch, runAnalysisLoop_spec]
  refine ⟨?_, ?_, ("Error analyzing "), (": " ++ msg), ?_⟩
  · show [] ++ batchResults (pre ++ bad :: post) = _
    rw [List.nil_append, hres, batchResults_structured hpre,
      batchResults_structured hpost, List.map_append]
  · show [] ++ batchFailures (pre ++ bad :: post) = _
    rw [List.nil_append, hfail, batchFailures_structured hpre,
      batchFailures_structured hpost, List.nil_append]
  · simp [errorDiag, String.append_assoc]

/-- Claim C1 witness: a concrete 3-document batch whose middle document
raises; the two other records survive in order and exactly one failure is
recorded, referencing the bad document's filename. -/
theorem batch_isolates_single_error_witness :
    (runAnalysisBatch [paperOkA, paperBad, paperOkC]).results
        = [StoredResult.validated recNone, StoredResult.validated recNone]
      ∧ (runAnalysisBatch [paperOkA, paperBad, paperOkC]).failures
        = [(("b.pdf"), ("Error analyzing b.pdf: boom"))] := by
  have h := batch_isolates_single_error [paperOkA] [paperOkC] paperBad ("boom")
    (fun p hp => by
      rw [List.mem_singleton.mp hp]
      exact ⟨recNone, rfl⟩)
    (fun p hp => by
      rw [List.mem_singleton.mp hp]
      exact ⟨recNone, rfl⟩)
    rfl
  refine ⟨?_, ?_⟩
  · rw [show ([paperOkA, paperBad, paperOkC] : List Paper)
        = [paperOkA] ++ paperBad :: [paperOkC] from rfl, h.1]
    rfl
  · rw [show ([paperOkA, paperBad, paperOkC] : List Paper)
        = [paperOkA] ++ paperBad :: [paperOkC] from rfl, h.2.1]
    rfl

/-- Claim C3: a document whose Synthesis output carries only unstructured
text (no structured payload) is treated as a failed document: it contributes
no record at all to the result list — neither partial nor freehand-parsed —
and is recorded as a failure referencing its filename, while every other
document's record survives in order. -/
theorem raw_output_marks_document_failed (pre post : List Paper) (bad : Paper) (raw : String)
    (hpre : ∀ p ∈ pre, ∃ r, p.outcome = CrewOutcome.structured r)
    (hpost : ∀ p ∈ post, ∃ r, p.outcome = CrewOutcome.structured r)
    (hbad : bad.outcome = CrewOutcome.rawOnly raw) :
    (runAnalysisBatch (pre ++ bad :: post)).results
        = ((recordsOf pre ++ recordsOf post).map StoredResult.validated)
      ∧ (runAnalysisBatch (pre ++ bad :: post)).failures
        = [(bad.filename, rawFailDiag bad.filename raw)] := by
  have hres : batchResults (pre ++ bad :: post) = batchResults pre ++ batchResults post := by
    simp only [batchResults, List.filterMap_append, List.filterMap_cons, hbad]
  have hfail : batchFailures (pre ++ bad :: post)
      = batchFailures pre ++ (bad.filename, rawFailDiag bad.filename raw) :: batchFailures post := by
    simp only [batchFailures, List.filterMap_append, List.filterMap_cons, hbad]
  rw [runAnalysisBatch, runAnalysisLoop_spec]
  refine ⟨?_, ?_⟩
  · show [] ++ batchResults (pre ++ bad :: post) = _
    rw [List.nil_append, hres, batchResults_structured hpre,
      batchResults_structured hpost, List.map_append]
  · show [] ++ batchFailures (pre ++ bad :: post) = _
    rw [List.nil_append, hfail, batchFailures_structured hpre,
      batchFailures_structured hpost, List.nil_append]

set_option maxRecDepth 10000 in
/-- Claim C3 witness: a concrete 3-document batch whose middle document
returns only raw text; no record is emitted for it and its failure
diagnostic names the file and quotes the raw text. -/
theorem raw_output_marks_document_failed_witness :
    (runAnalysisBatch [paperOkA, paperRawOnly, paperOkC]).results
        = [StoredResult.validated recNone, StoredResult.validated recNone]
      ∧ (runAnalysisBatch [paperOkA, paperRawOnly, paperOkC]).failures
        = [(("d.pdf"),
            ("Structured data extraction failed for d.pdf. Raw output: The study shows..."))] := by
  have h := raw_output_marks_document_failed [paperOkA] [paperOkC] paperRawOnly
    ("The study shows")
    (fun p hp => by
      rw [List.mem_singleton.mp hp]
      exact ⟨recNone, rfl⟩)
    (fun p hp => by
      rw [List.mem_singleton.mp hp]
      exact ⟨recNone, rfl⟩)
    rfl
  refine ⟨?_, ?_⟩
  · rw [show ([paperOkA, paperRawOnly, paperOkC] : List Paper)
        = [paperOkA] ++ paperRawOnly :: [paperOkC] from rfl, h.1]
    rfl
  · rw [show ([paperOkA, paperRawOnly, paperOkC] : List Paper)
        = [paperOkA] ++ paperRawOnly :: [paperOkC] from rfl, h.2]
    rfl

set_option maxRecDepth 10000 in
/-- Claim C7 (code bug): the `continue` in the raw-output branch of
src/app.py line 101 jumps past the `progress_bar.progress((idx+1)/len(papers))`
call at line 110, so a document that fails structured extraction is processed
(its failure is recorded) yet NO progress report is issued for it — for a
one-document batch the progress sequence is empty instead of `[1/1]`.  A
document that fails by exception, by contrast, does get its report. -/
theorem rawOnly_skips_progress_report :
    (runAnalysisBatch [paperRawOnly]).progress = []
      ∧ (runAnalysisBatch [paperRawOnly]).failures
        = [(("d.pdf"),
            ("Structured data extraction failed for d.pdf. Raw output: The study shows..."))]
      ∧ (runAnalysisBatch [paperBad]).progress = [(1, 1)]
      ∧ (runAnalysisBatch [paperOkA]).progress = [(1, 1)] := by
  refine ⟨rfl, rfl, rfl, rfl⟩

/-- Claim C2 counterexample: pydantic's default lax validation COERCES —
the numeric string "5" is accepted into the trust_score slot as the integer
5 and the string "true" into the conflict slot as `true`, while the claim's
own policy (reject any string, never coerce) would reject both.  The
claim's "any other value in those slots ... is rejected as a validation
failure, never clamped or coerced into a record" is therefore false of the
program. -/
theorem lax_coercion_counterexample :
    validate_trust_score_lax (JsonValue.jstr ("5")) = some (some 5)
      ∧ validate_trust_score_lax (JsonValue.jstr ("5")) ≠ none
      ∧ trust_score_claimed_policy (JsonValue.jstr ("5")) = none
      ∧ validate_has_coi_lax (JsonValue.jstr ("true")) = some (some true)
      ∧ validate_has_coi_lax (JsonValue.jstr ("true")) ≠ none
      ∧ has_coi_claimed_policy (JsonValue.jstr ("true")) = none := by
  refine ⟨by decide, by decide, rfl, by decide, by decide, rfl⟩

/-- Claim C2 amended: under pydantic's lax validation of the declared
fields, every ACCEPTED trust_score payload is stored as null or an integer
in [1,10]; in-range integers are stored unchanged and out-of-range
integers are rejected, never clamped; booleans pass through the conflict
slot unchanged; and the genuinely non-conforming values trust_score = 0,
trust_score = "high" and has_conflict_of_interest = "NOT REPORTED" are
rejected.  Acceptance is however coercive on numeric and bool-like strings
(see the counterexample), not strictly typed. -/
theorem lax_validation_record_invariant :
    (∀ (v : JsonValue) (r : Option Int), validate_trust_score_lax v = some r →
        r = none ∨ ∃ n : Int, r = some n ∧ 1 ≤ n ∧ n ≤ 10)
      ∧ (∀ n : Int, 1 ≤ n → n ≤ 10 →
          validate_trust_score_lax (JsonValue.jint n) = some (some n))
      ∧ (∀ n : Int, (n < 1 ∨ 10 < n) →
          validate_trust_score_lax (JsonValue.jint n) = none)
      ∧ (∀ b : Bool, validate_has_coi_lax (JsonValue.jbool b) = some (some b))
      ∧ validate_trust_score_lax (JsonValue.jint 0) = none
      ∧ validate_trust_score_lax (JsonValue.jstr ("high")) = none
      ∧ validate_has_coi_lax (JsonValue.jstr ("NOT REPORTED")) = none := by
  refine ⟨?_, ?_, ?_, fun b => rfl, by decide, by decide, by decide⟩
  · intro v r h
    cases v with
    | null =>
        simp only [validate_trust_score_lax, Option.some.injEq] at h
        exact Or.inl h.symm
    | jint n =>
        by_cases hb : 1 ≤ n ∧ n ≤ 10
        · rw [validate_trust_score_lax, if_pos hb, Option.some.injEq] at h
          exact Or.inr ⟨n, h.symm, hb.1, hb.2⟩
        · rw [validate_trust_score_lax, if_neg hb] at h
          exact absurd h (by simp)
    | jstr s =>
        simp only [validate_trust_score_lax] at h
        cases hp : strToInt? s with
        | none =>
            rw [hp] at h
            exact absurd h (by simp)
        | some n =>
            rw [hp] at h
            have h' : (if 1 ≤ n ∧ n ≤ 10 then some (some n) else none) = some r := h
            by_cases hb : 1 ≤ n ∧ n ≤ 10
            · rw [if_pos hb, Option.some.injEq] at h'
              exact Or.inr ⟨n, h'.symm, hb.1, hb.2⟩
            · rw [if_neg hb] at h'
              exact absurd h' (by simp)
    | jbool b => exact absurd h (by simp [validate_trust_score_lax])
  · intro n h1 h2
    show (if 1 ≤ n ∧ n ≤ 10 then some (some n) else none) = some (some n)
    rw [if_pos ⟨h1, h2⟩]
  · intro n h
    show (if 1 ≤ n ∧ n ≤ 10 then some (some n) else none) = none
    rw [if_neg (by omega)]

/-- Claim C2 amended witness: the invariant and the exact-acceptance parts
of the amended theorem exercised at concrete inputs. -/
theorem lax_validation_record_invariant_witness :
    ((some 5 : Option Int) = none
        ∨ ∃ n : Int, (some 5 : Option Int) = some n ∧ 1 ≤ n ∧ n ≤ 10)
      ∧ validate_trust_score_lax (JsonValue.jint 5) = some (some 5)
      ∧ validate_trust_score_lax (JsonValue.jint 11) = none
      ∧ validate_has_coi_lax (JsonValue.jbool true) = some (some true) := by
  refine ⟨?_, ?_, ?_, ?_⟩
  · exact lax_validation_record_invariant.1 (JsonValue.jint 5) (some 5) (by decide)
  · exact lax_validation_record_invariant.2.1 5 (by decide) (by decide)
  · exact lax_validation_record_invariant.2.2.1 11 (Or.inr (by decide))
  · exact lax_validation_record_invariant.2.2.2.1 true

/-- Claim C4: when some alias of a section matches at two or more distinct
offsets, the section's returned slice begins at the earliest match offset
for that section — the first time the name is encountered in the
offset-sorted walk wins, and later matches for the already-assigned name
are ignored. -/
theorem first_occurrence_wins (text : List Char) (s : SectionName) (p₁ p₂ : Nat)
    (h₁ : sectionMatchAt (loweredOf text) s p₁)
    (_h₂ : sectionMatchAt (loweredOf text) s p₂)
    (h₁₂ : p₁ < p₂) :
    ∃ p e, sectionMatchAt (loweredOf text) s p
      ∧ (∀ q, sectionMatchAt (loweredOf text) s q → p ≤ q)
      ∧ p < p₂
      ∧ (extract_paper_sections text).get s = some (sliceStrip (collapseWS text) p e) := by
  have hmem : (p₁, s) ∈ sortedHeadings text := mem_sortedHeadings.mpr h₁
  obtain ⟨v, hv⟩ := Option.isSome_iff_exists.mp
    (@firstSliceOf_isSome (collapseWS text) s (sortedHeadings text) ⟨p₁, hmem⟩)
  obtain ⟨p, e, hpmem, hmin, hpe, hel, hveq, hep, hbet⟩ :=
    firstSliceOf_spec (pairwise_sortedHeadings text)
      (fun x hx => sortedHeadings_lt_length hx) hv
  refine ⟨p, e, mem_sortedHeadings.mp hpmem, ?_, ?_, ?_⟩
  · intro q hq
    exact hmin q (mem_sortedHeadings.mpr hq)
  · exact Nat.lt_of_le_of_lt (hmin p₁ hmem) h₁₂
  · rw [get_extract, hv, hveq]

/-- Claim C4 witness: in `"results a results b"` the `results` alias matches
at offsets 0 and 10; the returned slice begins at the earliest such offset. -/
theorem first_occurrence_wins_witness :
    ∃ p e, sectionMatchAt (loweredOf (("results a results b").toList)) SectionName.results p
      ∧ (∀ q, sectionMatchAt (loweredOf (("results a results b").toList)) SectionName.results q
          → p ≤ q)
      ∧ p < 10
      ∧ (extract_paper_sections (("results a results b").toList)).get SectionName.results
          = some (sliceStrip (collapseWS (("results a results b").toList)) p e) :=
  first_occurrence_wins (("results a results b").toList) SectionName.results 0 10
    (by decide) (by decide) (by decide)

/-- Claim C10: every non-null slice returned for a canonical (non-title)
section is the whitespace-stripped contiguous substring of the normalized
text that begins at a case-insensitive, word-boundary-delimited occurrence
of one of that section's aliases and extends to the start offset of the
NEXT recorded heading match — no recorded match lies strictly between the
slice's start and its end — or to the end of the normalized text for the
last match. -/
theorem section_slice_invariant (text : List Char) (s : SectionName) (v : List Char)
    (h : (extract_paper_sections text).get s = some v) :
    ∃ p e, p ≤ e ∧ e ≤ (collapseWS text).length
      ∧ sectionMatchAt (loweredOf text) s p
      ∧ v = stripList (((collapseWS text).drop p).take (e - p))
      ∧ (e = (collapseWS text).length ∨ ∃ t, sectionMatchAt (loweredOf text) t e)
      ∧ (∀ q t, sectionMatchAt (loweredOf text) t q → q ≤ p ∨ e ≤ q) := by
  rw [get_extract] at h
  obtain ⟨p, e, hpmem, hmin, hpe, hel, hveq, hep, hbet⟩ :=
    firstSliceOf_spec (pairwise_sortedHeadings text)
      (fun x hx => sortedHeadings_lt_length hx) h
  refine ⟨p, e, hpe, hel, mem_sortedHeadings.mp hpmem, hveq, ?_, ?_⟩
  · rcases hep with h' | ⟨t, ht⟩
    · exact Or.inl h'
    · exact Or.inr ⟨t, mem_sortedHeadings.mp ht⟩
  · intro q t hqt
    exact hbet (q, t) (mem_sortedHeadings.mpr hqt)

/-- Claim C10 witness: the `abstract` slice of `"abstract hello"` begins at a
word-boundary occurrence of the `abstract` alias and runs to the end of the
normalized text. -/
theorem section_slice_invariant_witness :
    ∃ p e, p ≤ e ∧ e ≤ (collapseWS (("abstract hello").toList)).length
      ∧ sectionMatchAt (loweredOf (("abstract hello").toList)) SectionName.abstract p
      ∧ ("abstract hello").toList
          = stripList (((collapseWS (("abstract hello").toList)).drop p).take (e - p))
      ∧ (e = (collapseWS (("abstract hello").toList)).length
          ∨ ∃ t, sectionMatchAt (loweredOf (("abstract hello").toList)) t e)
      ∧ (∀ q t, sectionMatchAt (loweredOf (("abstract hello").toList)) t q
          → q ≤ p ∨ e ≤ q) :=
  section_slice_invariant (("abstract hello").toList) SectionName.abstract
    (("abstract hello").toList) (by decide)

/-- Claim C5 counterexample: on the input `"a  b"` the returned title keeps
the raw double space, so it is NOT the first 500 characters of the
whitespace-normalized text trimmed — the title is cut from the RAW text
before normalization (src/src/utils.py line 19 runs before line 22). -/
theorem title_not_normalized_counterexample :
    (extract_paper_sections (("a  b").toList)).title
        ≠ some (stripList ((collapseWS (("a  b").toList)).take 500))
      ∧ (extract_paper_sections (("a  b").toList)).title = some (("a  b").toList) := by
  exact ⟨by decide, by decide⟩

/-- Claim C5 amended: the title slice equals the first 500 characters of the
RAW input text, trimmed (`none` exactly when the input is empty), and the
title does not participate in the heading scan — the canonical section
slices depend only on the whitespace-normalized text. -/
theorem title_from_raw_text (text : List Char) :
    ((extract_paper_sections text).title
        = (if text = [] then none else some (stripList (text.take 500))))
      ∧ (∀ t₂ : List Char, collapseWS text = collapseWS t₂ →
          ∀ s : SectionName,
            (extract_paper_sections text).get s = (extract_paper_sections t₂).get s) := by
  constructor
  · rw [title_extract]
    rfl
  · intro t₂ hnorm s
    rw [get_extract, get_extract, sortedHeadings, sortedHeadings, loweredOf, loweredOf, hnorm]

/-- Claim C5 witness: `"a  b"` and `"a b"` normalize identically, so their
canonical sections agree even though their raw titles differ. -/
theorem title_from_raw_text_witness :
    (extract_paper_sections (("a  b").toList)).title
        = some (stripList ((("a  b").toList).take 500))
      ∧ (extract_paper_sections (("a  b").toList)).get SectionName.methods
          = (extract_paper_sections (("a b").toList)).get SectionName.methods := by
  constructor
  · rw [(title_from_raw_text (("a  b").toList)).1, if_neg (by decide)]
  · exact (title_from_raw_text (("a  b").toList)).2 (("a b").toList) (by decide)
      SectionName.methods

/-- Claim C6 counterexample: on the whitespace-only input `" "` the returned
title is the EMPTY STRING, not null — `" "` is truthy in Python, so
`text[:500].strip()` yields `""` (src/src/utils.py line 19). -/
theorem whitespace_title_counterexample :
    (extract_paper_sections ((" ").toList)).title ≠ none
      ∧ (extract_paper_sections ((" ").toList)).title = some [] := by
  exact ⟨by decide, by decide⟩

/-- Claim C6 amended: when the heading scan records no match at all, every
canonical section is explicitly null and the title is `titleSnippet`:
null on EMPTY input, the empty string on whitespace-only input, and
otherwise the first 500 raw characters trimmed.  (All nine keys are always
present in the returned `SectionSet`.) -/
theorem no_matches_all_null (text : List Char)
    (h : headingPositions (loweredOf text) = []) :
    extract_paper_sections text = emptySectionSet (titleSnippet text)
      ∧ titleSnippet text
          = (if text = [] then none else some (stripList (text.take 500))) := by
  constructor
  · rw [extract_paper_sections, sortedHeadings, h]
    rfl
  · rfl

/-- Claim C6 witness: the alias-free input `"x"` yields every canonical
section null with only the title set, and the empty input yields the
all-null set with a null title. -/
theorem no_matches_all_null_witness :
    extract_paper_sections (("x").toList)
        = emptySectionSet (titleSnippet (("x").toList))
      ∧ extract_paper_sections ([] : List Char) = emptySectionSet none := by
  constructor
  · exact (no_matches_all_null (("x").toList) (by decide)).1
  · rw [(no_matches_all_null ([] : List Char) (by decide)).1]
    rfl

/-- Claim C8 counterexample: with every relevant section null, the Triage
stage and the Statistics stage receive the EMPTY string, not an explicit
sentinel — only the Methodology and Title inputs get sentinel strings
(src/src/crew.py lines 18-31). -/
theorem triage_stats_no_sentinel_counterexample :
    (emptySectionSet none).abstract = none
      ∧ (emptySectionSet none).funding = none
      ∧ (emptySectionSet none).conflicts_of_interest = none
      ∧ (emptySectionSet none).methods = none
      ∧ (emptySectionSet none).results = none
      ∧ (create_nutrition_crew (emptySectionSet none)).triage_text = []
      ∧ (create_nutrition_crew (emptySectionSet none)).stats_text = [] := by
  decide

/-- Claim C8 amended: sentinel substitution exists for exactly two stage
inputs — the Methodology stage receives `"METHODS NOT REPORTED"` and the
Title stage `"TITLE NOT FOUND"` when their sections are absent (or empty);
the Triage and Statistics stages instead receive the join of their non-null,
non-empty sections, which is the EMPTY string when all of them are absent. -/
theorem stage_sentinel_policy (ps : SectionSet) :
    ((ps.methods = none ∨ ps.methods = some []) →
        (create_nutrition_crew ps).methods_text = ("METHODS NOT REPORTED").toList)
      ∧ ((ps.title = none ∨ ps.title = some []) →
        (create_nutrition_crew ps).title_text = ("TITLE NOT FOUND").toList)
      ∧ (((ps.abstract = none ∨ ps.abstract = some [])
            ∧ (ps.funding = none ∨ ps.funding = some [])
            ∧ (ps.conflicts_of_interest = none ∨ ps.conflicts_of_interest = some [])) →
        (create_nutrition_crew ps).triage_text = [])
      ∧ (((ps.methods = none ∨ ps.methods = some [])
            ∧ (ps.results = none ∨ ps.results = some [])) →
        (create_nutrition_crew ps).stats_text = []) := by
  refine ⟨?_, ?_, ?_, ?_⟩
  · rintro (h | h) <;> simp [create_nutrition_crew, falsyOr, h]
  · rintro (h | h) <;> simp [create_nutrition_crew, falsyOr, h]
  · rintro ⟨ha | ha, hf | hf, hc | hc⟩ <;>
      simp [create_nutrition_crew, truthyParts, List.intercalate, ha, hf, hc]
  · rintro ⟨hm | hm, hr | hr⟩ <;>
      simp [create_nutrition_crew, truthyParts, List.intercalate, hm, hr]

/-- Claim C8 witness: on the all-null section set, the Methodology and Title
inputs carry their sentinels while Triage and Statistics carry the empty
string. -/
theorem stage_sentinel_policy_witness :
    (create_nutrition_crew (emptySectionSet none)).methods_text
        = ("METHODS NOT REPORTED").toList
      ∧ (create_nutrition_crew (emptySectionSet none)).title_text
        = ("TITLE NOT FOUND").toList
      ∧ (create_nutrition_crew (emptySectionSet none)).triage_text = []
      ∧ (create_nutrition_crew (emptySectionSet none)).stats_text = [] := by
  have h := stage_sentinel_policy (emptySectionSet none)
  exact ⟨h.1 (Or.inl rfl), h.2.1 (Or.inl rfl),
    h.2.2.1 ⟨Or.inl rfl, Or.inl rfl, Or.inl rfl⟩,
    h.2.2.2 ⟨Or.inl rfl, Or.inl rfl⟩⟩

/-! ### Same-offset heading matches (supporting analysis for the tie-break
question): two recorded matches can only share a start offset if they are
matches for the same canonical section. -/

theorem getD_drop_eq (l : List Char) (p i : Nat) (d : Char) :
    (l.drop p).getD i d = l.getD (p + i) d := by
  induction l generalizing p with
  | nil => simp
  | cons c cs ih =>
      cases p with
      | zero => simp
      | succ p' =>
          simp only [List.drop_succ_cons, Nat.succ_add, List.getD_cons_succ]
          exact ih p'

theorem getD_take_of_lt {n i : Nat} (h : i < n) (l : List Char) (d : Char) :
    (l.take n).getD i d = l.getD i d := by
  induction l generalizing n i with
  | nil => simp
  | cons c cs ih =>
      cases n with
      | zero => omega
      | succ n' =>
          cases i with
          | zero => simp
          | succ i' =>
              simp only [List.take_succ_cons, List.getD_cons_succ]
              exact ih (by omega)

theorem alias_section_unique :
    ∀ s₁ s₂ : SectionName, s₁ ≠ s₂ → ∀ a ∈ aliasesOf s₁, a ∉ aliasesOf s₂ := by
  intro s₁ s₂
  cases s₁ <;> cases s₂ <;> decide

theorem alias_cross_boundary_free :
    ∀ s₁ s₂ : SectionName, s₁ ≠ s₂ → ∀ a₁ ∈ aliasesOf s₁, ∀ a₂ ∈ aliasesOf s₂,
      ¬(a₁ = a₂.take a₁.length ∧ a₁.length < a₂.length
          ∧ isWordChar (a₂.getD a₁.length ' ') = false) := by
  intro s₁ s₂
  cases s₁ <;> cases s₂ <;> decide

theorem section_eq_of_match_le {l : List Char} {p : Nat} {a₁ a₂ : List Char}
    {s₁ s₂ : SectionName} (ha₁ : a₁ ∈ aliasesOf s₁) (ha₂ : a₂ ∈ aliasesOf s₂)
    (hm₁ : matchesAt l p a₁ = true) (hm₂ : matchesAt l p a₂ = true)
    (hlen : a₁.length ≤ a₂.length) : s₁ = s₂ := by
  by_contra hne
  simp only [matchesAt, Bool.and_eq_true, beq_iff_eq, Bool.or_eq_true,
    Bool.not_eq_true'] at hm₁ hm₂
  obtain ⟨⟨ht₁, _⟩, he₁⟩ := hm₁
  obtain ⟨⟨ht₂, _⟩, _⟩ := hm₂
  have hpre : a₁ = a₂.take a₁.length := by
    rw [← ht₂, List.take_take, Nat.min_eq_left hlen, ht₁]
  rcases Nat.lt_or_ge a₁.length a₂.length with hlt | hge
  · have hlen₂ : a₂.length ≤ (l.drop p).length := by
      have hlt2 := congrArg List.length ht₂
      rw [List.length_take] at hlt2
      calc a₂.length = min a₂.length (l.drop p).length := hlt2.symm
        _ ≤ (l.drop p).length := Nat.min_le_right _ _
    have hld : (l.drop p).length = l.length - p := List.length_drop p l
    have hplt : p + a₁.length < l.length := by omega
    have hbound : isWordChar (l.getD (p + a₁.length) ' ') = false := by
      rcases he₁ with h' | h'
      · omega
      · exact h'
    have hget : l.getD (p + a₁.length) ' ' = a₂.getD a₁.length ' ' := by
      rw [← ht₂, getD_take_of_lt hlt, getD_drop_eq]
    exact alias_cross_boundary_free s₁ s₂ hne a₁ ha₁ a₂ ha₂
      ⟨hpre, hlt, by rw [← hget]; exact hbound⟩
  · have heq : a₁.length = a₂.length := Nat.le_antisymm hlen hge
    have : a₁ = a₂ := by rw [hpre, heq, List.take_length]
    exact alias_section_unique s₁ s₂ hne a₁ ha₁ (this ▸ ha₂)

/-- Two recorded heading matches that share a start offset are always
matches for the SAME canonical section: with the fixed alias table, no
alias of one section is a word-boundary-delimited prefix of an alias of a
different section, so the cross-section same-offset tie described in the
specification's tie-break rule cannot occur on any input. -/
theorem same_offset_same_section {l : List Char} {p : Nat} {s₁ s₂ : SectionName}
    (h₁ : (p, s₁) ∈ headingPositions l) (h₂ : (p, s₂) ∈ headingPositions l) :
    s₁ = s₂ := by
  obtain ⟨a₁, ha₁, hm₁⟩ := mem_headingPositions.mp h₁
  obtain ⟨a₂, ha₂, hm₂⟩ := mem_headingPositions.mp h₂
  rcases Nat.le_total a₁.length a₂.length with hle | hle
  · exact section_eq_of_match_le ha₁ ha₂ hm₁ hm₂ hle
  · exact (section_eq_of_match_le ha₂ ha₁ hm₂ hm₁ hle).symm
